import Mathlib

/-!
Shallow embedding of torchquad's VEGAS integrator control logic
(src/torchquad/integration/vegas.py) and of the Gaussian quadrature
dispatch (src/torchquad/integration/gaussian.py).

Numeric values carried by backend tensors are modelled by `ERat`, an
extended-rational type with IEEE-754-style special values (`pinf`,
`ninf`, `nan`) and exact rational arithmetic in place of rounded
floating point.  `ERat.sqrtE` uses `Rat.sqrt`, which agrees with the
real square root exactly on perfect squares; every concrete run
evaluated in this file applies it only to perfect squares or to
`pinf`, so those runs are faithful to real-valued square roots.

Code that the VEGAS loop calls but that is not part of the two source
files (the RNG, the adaptive map, the stratification, and the
integrand itself) is abstracted by explicit oracle parameters; where a
claim depends on such missing code, the corresponding definition is
modelled from the spec and marked as such.
-/

inductive ERat where
  | fin : ℚ → ERat
  | pinf : ERat
  | ninf : ERat
  | nan : ERat
deriving DecidableEq

namespace ERat

/-- Mirrors `anp.isnan` on a scalar tensor. -/
def isnan : ERat → Bool
  | nan => true
  | _ => false

/-- True exactly on finite values. -/
def isFin : ERat → Bool
  | fin _ => true
  | _ => false

/-- IEEE-style addition (idealized: exact rational arithmetic). -/
def add : ERat → ERat → ERat
  | nan, _ => nan
  | _, nan => nan
  | pinf, ninf => nan
  | ninf, pinf => nan
  | pinf, _ => pinf
  | _, pinf => pinf
  | ninf, _ => ninf
  | _, ninf => ninf
  | fin a, fin b => fin (a + b)

def neg : ERat → ERat
  | fin a => fin (-a)
  | pinf => ninf
  | ninf => pinf
  | nan => nan

def sub (a b : ERat) : ERat := add a (neg b)

/-- IEEE-style multiplication: `inf * 0 = nan`, sign rules otherwise. -/
def mul : ERat → ERat → ERat
  | nan, _ => nan
  | _, nan => nan
  | fin a, fin b => fin (a * b)
  | pinf, pinf => pinf
  | pinf, ninf => ninf
  | ninf, pinf => ninf
  | ninf, ninf => pinf
  | pinf, fin b => if 0 < b then pinf else if b < 0 then ninf else nan
  | fin a, pinf => if 0 < a then pinf else if a < 0 then ninf else nan
  | ninf, fin b => if 0 < b then ninf else if b < 0 then pinf else nan
  | fin a, ninf => if 0 < a then ninf else if a < 0 then pinf else nan

/-- IEEE-style division: `x/0` gives a signed infinity (`0/0 = nan`),
`inf/inf = nan`, `finite/inf = 0`.  The zero divisor is treated as
IEEE positive zero, as produced by the Python code. -/
def div : ERat → ERat → ERat
  | nan, _ => nan
  | _, nan => nan
  | fin a, fin b =>
      if b = 0 then (if 0 < a then pinf else if a < 0 then ninf else nan)
      else fin (a / b)
  | fin _, pinf => fin 0
  | fin _, ninf => fin 0
  | pinf, fin b => if b < 0 then ninf else pinf
  | ninf, fin b => if b < 0 then pinf else ninf
  | pinf, pinf => nan
  | pinf, ninf => nan
  | ninf, pinf => nan
  | ninf, ninf => nan

/-- IEEE-style `<`: any comparison involving `nan` is false. -/
def blt : ERat → ERat → Bool
  | nan, _ => false
  | _, nan => false
  | fin a, fin b => a < b
  | fin _, pinf => true
  | pinf, _ => false
  | ninf, ninf => false
  | ninf, _ => true
  | fin _, ninf => false

/-- Mirrors `anp.minimum` (torch.minimum): propagates `nan`. -/
def minE (a b : ERat) : ERat :=
  if a.isnan || b.isnan then nan else if blt b a then b else a

/-- Absolute value (used only to state the spec-side `|I|` formula). -/
def absE : ERat → ERat
  | fin a => fin |a|
  | pinf => pinf
  | ninf => pinf
  | nan => nan

/-- Mirrors `anp.sqrt`.  On finite nonnegative rationals this uses
`Rat.sqrt`, which is exact precisely on perfect squares; every
concrete run in this file applies it only to perfect squares or to
`pinf`. -/
def sqrtE : ERat → ERat
  | fin q => if q < 0 then nan else fin (Rat.sqrt q)
  | pinf => pinf
  | ninf => nan
  | nan => nan

end ERat

/-- Mirrors lines 138-139 of vegas.py: `if anp.isnan(acc): acc = 0.0`. -/
def nanToZero (a : ERat) : ERat := if a.isnan then ERat.fin 0 else a

/-! ### Per-iteration record combination (`VEGAS._get_result`,
`VEGAS._get_error`, `VEGAS._get_chisq`) -/

/-- `res_num` accumulator of `VEGAS._get_result`:
`for idx, res in enumerate(self.results): res_num += res / self.sigma2[idx]`. -/
def resNum (results sigma2 : List ERat) : ERat :=
  (results.zip sigma2).foldl (fun a p => ERat.add a (ERat.div p.1 p.2)) (ERat.fin 0)

/-- `res_den` accumulator of `VEGAS._get_result`:
`res_den += 1.0 / self.sigma2[idx]` over the same loop. -/
def resDen (results sigma2 : List ERat) : ERat :=
  (results.zip sigma2).foldl (fun a p => ERat.add a (ERat.div (ERat.fin 1) p.2)) (ERat.fin 0)

/-- Mirrors `anp.mean(anp.array(self.results))`. -/
def meanE (results : List ERat) : ERat :=
  ERat.div (results.foldl ERat.add (ERat.fin 0)) (ERat.fin (results.length : ℚ))

/-- `VEGAS._get_result` (vegas.py lines 267-282): inverse-variance
weighted mean of the recorded iteration results, falling back to the
plain mean when the quotient is `nan`. -/
def getResult (results sigma2 : List ERat) : ERat :=
  if (ERat.div (resNum results sigma2) (resDen results sigma2)).isnan then
    meanE results
  else
    ERat.div (resNum results sigma2) (resDen results sigma2)

/-- `VEGAS._get_error` (vegas.py lines 284-295):
`res = Σ 1/sig; return 1.0 / anp.sqrt(res)`. -/
def getError (sigma2 : List ERat) : ERat :=
  ERat.div (ERat.fin 1)
    (ERat.sqrtE (sigma2.foldl (fun a s => ERat.add a (ERat.div (ERat.fin 1) s)) (ERat.fin 0)))

/-- `VEGAS._get_chisq` (vegas.py lines 297-307):
`chi2 += pow(res - I_final, 2) / self.sigma2[idx]`. -/
def getChisq (results sigma2 : List ERat) : ERat :=
  (results.zip sigma2).foldl
    (fun a p =>
      ERat.add a
        (ERat.div
          (ERat.mul (ERat.sub p.1 (getResult results sigma2))
            (ERat.sub p.1 (getResult results sigma2)))
          p.2))
    (ERat.fin 0)

/-! ### Spec-side formulas (written from the spec's words, for
comparison with the code-side definitions above) -/

/-- Spec formula `I = Σ(estimate_k / variance_k) / Σ(1/variance_k)`
over exact rationals. -/
def invVarMeanQ (results sigma2 : List ℚ) : ℚ :=
  ((results.zip sigma2).map (fun p => p.1 / p.2)).sum /
    ((results.zip sigma2).map (fun p => 1 / p.2)).sum

/-- Spec formula for the unweighted arithmetic mean of the recorded
estimates. -/
def arithMeanQ (results : List ℚ) : ℚ := results.sum / (results.length : ℚ)

/-- Claim C3's convergence condition as literally stated (with the
absolute value `|I|` in the relative-accuracy test). -/
def c3SpecConverged (results sigma2 : List ERat) (eps_rel eps_abs : ERat) : Bool :=
  (ERat.blt (ERat.div (getError sigma2) (ERat.absE (getResult results sigma2))) eps_rel
      || ERat.blt (getError sigma2) eps_abs)
    && ERat.blt (ERat.div (getChisq results sigma2) (ERat.fin 5)) (ERat.fin 1)

/-! ### The main sampling loop (`VEGAS.integrate`, vegas.py lines 104-169)

The per-iteration sampling work (`VEGAS._run_iteration`) calls into
`VEGASStratification`, `VEGASMap`, the RNG and the integrand, none of
which are under src/; it is abstracted by an `Oracle` that, given the
iteration number and the current `_starting_N`, yields the iteration's
recorded estimate, variance, and number of function evaluations
consumed (`neval.sum()`). -/

structure VState where
  it : ℕ
  nr_of_fevals : ℚ
  starting_N : ERat
  results : List ERat
  sigma2 : List ERat
deriving DecidableEq

structure VParams where
  N : ℕ
  max_iterations : ℕ
  eps_rel : ERat
  eps_abs : ERat
  use_warmup : Bool
deriving DecidableEq

/-- `self._N_increment = N // self._max_iterations` (Python floor division). -/
def VParams.nInc (p : VParams) : ℕ := p.N / p.max_iterations

structure IterOut where
  estimate : ERat
  sigma2 : ERat
  fevals : ℚ
deriving DecidableEq

abbrev Oracle : Type := ℕ → ERat → IterOut

inductive BreakKind where
  | maxIter
  | budget
  | converged
deriving DecidableEq

inductive StepRes where
  | brk : VState → BreakKind → StepRes
  | cont : VState → StepRes
deriving DecidableEq

/-- The abort checks of one pass of the while loop (vegas.py lines
125-164), applied after the iteration body has updated `it`, the
evaluation counter and the record lists.  `BreakKind` labels which
abort condition fired (the spec's `MaxIterationsReached`,
`BudgetExhausted` and `Converged` states). -/
def vegasCheck (p : VParams) (it : ℕ) (fevals : ℚ) (sN : ERat)
    (results sigma2 : List ERat) : StepRes :=
  let s' : VState := ⟨it, fevals, sN, results, sigma2⟩
  if p.max_iterations < it then .brk s' .maxIter
  else if ERat.blt (ERat.sub (ERat.fin (p.N : ℚ)) sN) (ERat.fin fevals) then .brk s' .budget
  else if it % 5 = 0 then
    let res := getResult results sigma2
    let err := getError sigma2
    let chi2 := getChisq results sigma2
    let acc := nanToZero (ERat.div err res)
    if (ERat.blt acc p.eps_rel || ERat.blt err p.eps_abs)
        && ERat.blt (ERat.div chi2 (ERat.fin 5)) (ERat.fin 1) then
      .brk s' .converged
    else if ERat.blt (ERat.div chi2 (ERat.fin 5)) (ERat.fin 1) then
      .cont ⟨it, fevals,
        ERat.minE (ERat.add sN (ERat.fin (p.nInc : ℚ)))
          (ERat.mul sN
            (ERat.sqrtE (ERat.div acc (ERat.add p.eps_rel (ERat.fin (1 / 100000000)))))),
        [], []⟩
    else if ERat.blt (ERat.fin 1) (ERat.div chi2 (ERat.fin 5)) then
      .cont ⟨it, fevals, ERat.add sN (ERat.fin (p.nInc : ℚ)), [], []⟩
    else .cont s'
  else .cont s'

/-- One full pass of the while loop: increment `it`, run the iteration
(abstracted by the oracle, which appends this iteration's estimate and
variance and consumes evaluations), then apply the abort checks. -/
def vegasBody (p : VParams) (o : Oracle) (s : VState) : StepRes :=
  vegasCheck p (s.it + 1) (s.nr_of_fevals + (o (s.it + 1) s.starting_N).fevals)
    s.starting_N
    (s.results ++ [(o (s.it + 1) s.starting_N).estimate])
    (s.sigma2 ++ [(o (s.it + 1) s.starting_N).sigma2])

inductive RunRes where
  | done : VState → BreakKind → RunRes
  | fuelOut : VState → RunRes
deriving DecidableEq

/-- The while loop, with explicit fuel.  The loop is proved below to
finish (never returning `fuelOut`) whenever given
`max_iterations + 2` units of fuel. -/
def vegasLoop (p : VParams) (o : Oracle) : ℕ → VState → RunRes
  | 0, s => .fuelOut s
  | fuel + 1, s =>
      match vegasBody p o s with
      | .brk s' k => .done s' k
      | .cont s' => vegasLoop p o fuel s'

/-! ### Warmup (`VEGAS._warmup_grid`, vegas.py lines 171-225)

Each warmup iteration appends its estimate and variance to
`self.results` / `self.sigma2` (lines 191-192 and 213-214); after the
warmup loop both lists are cleared (lines 224-225).  The numeric
content of a warmup iteration depends on the missing map/RNG modules
and is abstracted by the oracle `wo`. -/

/-- Mirrors `list.clear()`. -/
def listClear (l : List ERat) : List ERat := []

/-- Number of warmup iterations used by `VEGAS.integrate` (line 110:
`self._warmup_grid(5, self._starting_N // 5)`). -/
def warmupIterations : ℕ := 5

/-- `VEGAS._warmup_grid`'s effect on the record lists: append one
(estimate, variance) pair per warmup iteration, then clear both lists. -/
def warmupGrid (wo : ℕ → ERat × ERat) (warmupNIt : ℕ) (rs ss : List ERat) :
    List ERat × List ERat :=
  let grown := (List.range warmupNIt).foldl
    (fun acc i => (acc.1 ++ [(wo i).1], acc.2 ++ [(wo i).2])) (rs, ss)
  (listClear grown.1, listClear grown.2)

/-- The state with which the main while loop starts (vegas.py lines
69-110): fresh counters and record lists, `starting_N = N //
max_iterations`, with the warmup (if enabled) run first.  The spec
(§4.4 Warmup) states warmup iterations are unaccounted, so they leave
the evaluation counter at zero; their record-list effect is modelled
exactly (append then clear). -/
def loopEntry (p : VParams) (wo : ℕ → ERat × ERat) : VState :=
  let rss : List ERat × List ERat :=
    if p.use_warmup then warmupGrid wo warmupIterations [] [] else ([], [])
  ⟨0, 0, ERat.fin ((p.N / p.max_iterations : ℕ) : ℚ), rss.1, rss.2⟩

/-- `VEGAS.integrate` after input validation: run the (optional)
warmup and the main loop, then return `self._get_result()` (line 169).
The `prior` argument carries whatever instance state a previous
`integrate` call left on `self`; every field of it is overwritten
before use, mirroring lines 68-107. -/
def integrateCall (prior : VState) (p : VParams) (o : Oracle)
    (wo : ℕ → ERat × ERat) : ERat :=
  let s0 : VState :=
    { prior with
      it := (loopEntry p wo).it
      nr_of_fevals := (loopEntry p wo).nr_of_fevals
      starting_N := (loopEntry p wo).starting_N
      results := (loopEntry p wo).results
      sigma2 := (loopEntry p wo).sigma2 }
  match vegasLoop p o (p.max_iterations + 2) s0 with
  | .done s _ => getResult s.results s.sigma2
  | .fuelOut s => getResult s.results s.sigma2

/-! ### Input validation (`BaseIntegrator._check_inputs`) -/

inductive ConfigError where
  | badDim
  | tooFewEvals
  | dimMismatch
  | badDomain
deriving DecidableEq

/-- Modelled from the spec: the stratification's cube count, §4.3
`construct`: `N_strat = max(1, floor(requested_N/2 ^ (1/dim)))`,
`N_cubes = N_strat^dim` (`vegas_stratification.py` is not under src/).
The integer `dim`-th root is the greatest `k` with `k^dim ≤ N/2`. -/
def nStratSpec (dim N : ℕ) : ℕ :=
  max 1 (Nat.findGreatest (fun k => k ^ dim ≤ N / 2) (N / 2 + 1))

/-- Modelled from the spec: `N_cubes = N_strat^dim` (§4.3). -/
def nCubesSpec (dim N : ℕ) : ℕ := (nStratSpec dim N) ^ dim

/-- Modelled from the spec: `BaseIntegrator._check_inputs` is declared
in base_integrator.py, which is not under src/.  Following §7
(ConfigurationError, fatal, raised before sampling): `dim ≤ 0`; `N`
too small to give every stratification cube its minimum 2 evaluations;
malformed/inverted domain bounds; domain length mismatched with
`dim`.  A `none` domain selects the default domain and is not
validated against these bound conditions. -/
def checkInputs (dim : ℤ) (N : ℕ) (ud : Option (List (ERat × ERat))) :
    Except ConfigError Unit :=
  if dim ≤ 0 then .error .badDim
  else if N < 2 * nCubesSpec dim.toNat N then .error .tooFewEvals
  else
    match ud with
    | none => .ok ()
    | some d =>
        if (d.length : ℤ) ≠ dim then .error .dimMismatch
        else if d.all (fun b => ERat.blt b.1 b.2) then .ok ()
        else .error .badDomain

/-- `VEGAS.integrate` including the leading `self._check_inputs` call
(vegas.py line 57): validation happens before any sampling, so on
failure the oracles (and hence the integrand) are never consulted. -/
def integrateVEGASTop (prior : VState) (dim : ℤ)
    (ud : Option (List (ERat × ERat))) (p : VParams) (o : Oracle)
    (wo : ℕ → ERat × ERat) : Except ConfigError ERat :=
  match checkInputs dim p.N ud with
  | .error e => .error e
  | .ok _ => .ok (integrateCall prior p o wo)

/-- True exactly on successful results. -/
def exceptIsOk : Except ConfigError ERat → Bool
  | .ok _ => true
  | .error _ => false

/-! ### Warmup sampling bounds (vegas.py lines 196-207)

`yrnd = self.rng.uniform(...) * 0.999999`; the RNG (in utils.py, not
under src/) is spec-modelled as producing uniform values in `[0, 1)`.
The resulting row of coordinates is fed to `map.get_X`,
`map.get_Jac` and `map.accumulate_weight`. -/

/-- One warmup sample coordinate: a uniform `[0,1)` draw scaled by
`0.999999` (vegas.py lines 198-201). -/
def warmupYrnd (u : ℚ) : ℚ := u * (999999 / 1000000)

/-- One row of warmup sample coordinates (one point in the unit cube),
as passed to the map's `get_X` / `get_Jac` / `accumulate_weight`. -/
def warmupSampleRow (rng : ℕ → ℚ) (dim : ℕ) : List ℚ :=
  (List.range dim).map (fun j => warmupYrnd (rng j))

/-- Modelled from the spec: the importance map's bin lookup (§4.2
`get_X`): `floor(y * n_intervals)`, clamped to `n_intervals - 1`
(`vegas_map.py` is not under src/).  This is the unclamped index;
claim C10 asserts it never needs the clamp. -/
def binIndex (y : ℚ) (nIntervals : ℕ) : ℤ := ⌊y * (nIntervals : ℚ)⌋

/-! ### Gaussian quadrature dispatch (`Gaussian.integrate`,
gaussian.py lines 79-131)

The polynomial root/weight tables come from numpy/scipy and the
integrand is external; both are abstracted by oracles.  Only the
domain-selection and rescaling logic, which is what claim C9 is about,
is embedded concretely. -/

inductive GName where
  | legendre
  | jacobi
  | laguerre
  | hermite
deriving DecidableEq

structure GaussSelf where
  name : GName
  defaultDomain : List (ERat × ERat)

/-- `GaussLegendre.__init__`: default domain `[[-1, 1]]`. -/
def gaussLegendreSelf : GaussSelf := ⟨.legendre, [(ERat.fin (-1), ERat.fin 1)]⟩

/-- `GaussLaguerre.__init__` (gaussian.py lines 199-204): default
domain `[[0, numpy.inf]]`. -/
def gaussLaguerreSelf : GaussSelf := ⟨.laguerre, [(ERat.fin 0, ERat.pinf)]⟩

/-- `GaussHermite.__init__` (gaussian.py lines 223-228): default
domain `[[-numpy.inf, numpy.inf]]`. -/
def gaussHermiteSelf : GaussSelf := ⟨.hermite, [(ERat.ninf, ERat.pinf)]⟩

/-- Domain selection of `Gaussian.integrate` (gaussian.py lines
93-98): a `None` domain, or the Gauss-Laguerre / Gauss-Hermite rules,
select `self.default_integration_domain * dim`. -/
def chosenDomain (g : GaussSelf) (dim : ℕ)
    (ud : Option (List (ERat × ERat))) : List (ERat × ERat) :=
  if ud.isNone || g.name == .laguerre || g.name == .hermite then
    (List.replicate dim g.defaultDomain).flatten
  else ud.getD []

/-- Modelled from the spec: `BaseIntegrator._check_inputs` for the
quadrature family (no stratification-cube condition applies): `dim ≤
0`, domain length mismatch, or inverted bounds are fatal. -/
def checkInputsG (dim N : ℕ) (dom : List (ERat × ERat)) :
    Except ConfigError Unit :=
  if dim = 0 then .error .badDim
  else if dom.length ≠ dim then .error .dimMismatch
  else if dom.all (fun b => ERat.blt b.1 b.2) then .ok ()
  else .error .badDomain

/-- The per-dimension constant multiplier `self._get_constant_multiplier()`:
`(b - a) / 2` for the interval-transforming rules (Gauss-Legendre,
Gauss-Jacobi), `1.0` for Gauss-Laguerre and Gauss-Hermite. -/
def constMultiplier (g : GaussSelf) (dom : List (ERat × ERat)) : List ERat :=
  match g.name with
  | .legendre | .jacobi =>
      dom.map (fun b => ERat.mul (ERat.fin (1 / 2)) (ERat.sub b.2 b.1))
  | .laguerre | .hermite => List.replicate dom.length (ERat.fin 1)

/-- The quadrature points `xi` after `wrapper_func` /
`_expand_dimension`: the affine rescaling `a*(1-x)/2 + b*(1+x)/2` per
dimension for Gauss-Legendre / Gauss-Jacobi (gaussian.py lines
146-151, 175-180); the raw roots replicated across dimensions for
Gauss-Laguerre / Gauss-Hermite (`wrapper_func = None`). -/
def gaussPoints (g : GaussSelf) (dom : List (ERat × ERat)) (xi : List ℚ)
    (dim : ℕ) : List (List ERat) :=
  match g.name with
  | .legendre | .jacobi =>
      dom.map (fun b =>
        xi.map (fun x =>
          ERat.add (ERat.mul b.1 (ERat.fin ((1 - x) / 2)))
            (ERat.mul b.2 (ERat.fin ((1 + x) / 2)))))
  | .laguerre | .hermite => List.replicate dim (xi.map ERat.fin)

/-- `Gaussian.integrate` (gaussian.py lines 79-131): select the
domain, validate it, compute points and weights, evaluate the
integrand in batch (abstracted by `evalRows`, which returns the
per-dimension inner sums `anp.sum(self._eval(xi, weights=wi), axis=1)`),
and return `anp.sum(const * rows)`. -/
def integrateGauss (g : GaussSelf) (roots : ℕ → List ℚ × List ℚ)
    (evalRows : List (List ERat) → List (List ERat) → List ERat)
    (dim N : ℕ) (ud : Option (List (ERat × ERat))) :
    Except ConfigError ERat :=
  let dom := chosenDomain g dim ud
  match checkInputsG dim N dom with
  | .error e => .error e
  | .ok _ =>
      let xi := (roots N).1
      let wi := (roots N).2
      let pts := gaussPoints g dom xi dim
      let ws := List.replicate dim (wi.map ERat.fin)
      let rows := evalRows pts ws
      .ok ((List.zipWith ERat.mul (constMultiplier g dom) rows).foldl
        ERat.add (ERat.fin 0))

/-! ### `VEGAS._get_error` at the idealized real-number level

The claim about the error formula compares `1.0 / anp.sqrt(res)` with
the spec's `sqrt(1 / Σ(1/variance_k))`; this equality lives in exact
real arithmetic, so the error helper is also embedded over `ℝ` (the
rational sum is computed exactly as in the code, then fed to the real
square root). -/

/-- `VEGAS._get_error` with a real square root: the accumulation
`res += 1.0 / sig` followed by `1.0 / anp.sqrt(res)`. -/
noncomputable def getErrorR (sigma2 : List ℚ) : ℝ :=
  1 / Real.sqrt ((sigma2.foldl (fun a s => a + 1 / s) 0 : ℚ) : ℝ)

/-- Spec formula (§4.4 Error estimate): `sqrt(1 / Σ(1/variance_k))`. -/
noncomputable def errSpecR (sigma2 : List ℚ) : ℝ :=
  Real.sqrt (1 / (((sigma2.map fun s => 1 / s).sum : ℚ) : ℝ))

/-! ## Helper lemmas

Rational arithmetic does not reduce inside the kernel (the `Rat`
operations normalize through `Nat.gcd`), so concrete runs are
evaluated by `simp`/`norm_num` through the following constructor-wise
equations for the `ERat` operations. -/

@[simp] theorem ERat.add_ff (a b : ℚ) : ERat.add (.fin a) (.fin b) = .fin (a + b) := rfl
@[simp] theorem ERat.add_fp (a : ℚ) : ERat.add (.fin a) .pinf = .pinf := rfl
@[simp] theorem ERat.add_fn (a : ℚ) : ERat.add (.fin a) .ninf = .ninf := rfl
@[simp] theorem ERat.add_fa (a : ℚ) : ERat.add (.fin a) .nan = .nan := rfl
@[simp] theorem ERat.add_pf (b : ℚ) : ERat.add .pinf (.fin b) = .pinf := rfl
@[simp] theorem ERat.add_pp : ERat.add .pinf .pinf = .pinf := rfl
@[simp] theorem ERat.add_pn : ERat.add .pinf .ninf = .nan := rfl
@[simp] theorem ERat.add_pa : ERat.add .pinf .nan = .nan := rfl
@[simp] theorem ERat.add_nf (b : ℚ) : ERat.add .ninf (.fin b) = .ninf := rfl
@[simp] theorem ERat.add_np : ERat.add .ninf .pinf = .nan := rfl
@[simp] theorem ERat.add_nn : ERat.add .ninf .ninf = .ninf := rfl
@[simp] theorem ERat.add_na : ERat.add .ninf .nan = .nan := rfl
@[simp] theorem ERat.add_af (b : ℚ) : ERat.add .nan (.fin b) = .nan := rfl
@[simp] theorem ERat.add_ap : ERat.add .nan .pinf = .nan := rfl
@[simp] theorem ERat.add_an : ERat.add .nan .ninf = .nan := rfl
@[simp] theorem ERat.add_aa : ERat.add .nan .nan = .nan := rfl

@[simp] theorem ERat.neg_f (a : ℚ) : ERat.neg (.fin a) = .fin (-a) := rfl
@[simp] theorem ERat.neg_p : ERat.neg .pinf = .ninf := rfl
@[simp] theorem ERat.neg_n : ERat.neg .ninf = .pinf := rfl
@[simp] theorem ERat.neg_a : ERat.neg .nan = .nan := rfl

@[simp] theorem ERat.sub_eq (a b : ERat) : ERat.sub a b = ERat.add a (ERat.neg b) := rfl

@[simp] theorem ERat.mul_ff (a b : ℚ) : ERat.mul (.fin a) (.fin b) = .fin (a * b) := rfl
@[simp] theorem ERat.mul_pp : ERat.mul .pinf .pinf = .pinf := rfl
@[simp] theorem ERat.mul_pn : ERat.mul .pinf .ninf = .ninf := rfl
@[simp] theorem ERat.mul_np : ERat.mul .ninf .pinf = .ninf := rfl
@[simp] theorem ERat.mul_nn : ERat.mul .ninf .ninf = .pinf := rfl
@[simp] theorem ERat.mul_pf (b : ℚ) :
    ERat.mul .pinf (.fin b) = if 0 < b then .pinf else if b < 0 then .ninf else .nan := rfl
@[simp] theorem ERat.mul_fp (a : ℚ) :
    ERat.mul (.fin a) .pinf = if 0 < a then .pinf else if a < 0 then .ninf else .nan := rfl
@[simp] theorem ERat.mul_nf (b : ℚ) :
    ERat.mul .ninf (.fin b) = if 0 < b then .ninf else if b < 0 then .pinf else .nan := rfl
@[simp] theorem ERat.mul_fn (a : ℚ) :
    ERat.mul (.fin a) .ninf = if 0 < a then .ninf else if a < 0 then .pinf else .nan := rfl
@[simp] theorem ERat.mul_nan_left (b : ERat) : ERat.mul .nan b = .nan := by cases b <;> rfl
@[simp] theorem ERat.mul_nan_right (a : ERat) : ERat.mul a .nan = .nan := by cases a <;> rfl

@[simp] theorem ERat.div_ff (a b : ℚ) :
    ERat.div (.fin a) (.fin b)
      = if b = 0 then (if 0 < a then .pinf else if a < 0 then .ninf else .nan)
        else .fin (a / b) := rfl
@[simp] theorem ERat.div_fp (a : ℚ) : ERat.div (.fin a) .pinf = .fin 0 := rfl
@[simp] theorem ERat.div_fn (a : ℚ) : ERat.div (.fin a) .ninf = .fin 0 := rfl
@[simp] theorem ERat.div_pf (b : ℚ) :
    ERat.div .pinf (.fin b) = if b < 0 then .ninf else .pinf := rfl
@[simp] theorem ERat.div_nf (b : ℚ) :
    ERat.div .ninf (.fin b) = if b < 0 then .pinf else .ninf := rfl
@[simp] theorem ERat.div_pp : ERat.div .pinf .pinf = .nan := rfl
@[simp] theorem ERat.div_pn : ERat.div .pinf .ninf = .nan := rfl
@[simp] theorem ERat.div_np : ERat.div .ninf .pinf = .nan := rfl
@[simp] theorem ERat.div_nn : ERat.div .ninf .ninf = .nan := rfl
@[simp] theorem ERat.div_nan_left (b : ERat) : ERat.div .nan b = .nan := by cases b <;> rfl
@[simp] theorem ERat.div_nan_right (a : ERat) : ERat.div a .nan = .nan := by cases a <;> rfl

@[simp] theorem ERat.blt_ff (a b : ℚ) : ERat.blt (.fin a) (.fin b) = decide (a < b) := rfl
@[simp] theorem ERat.blt_fp (a : ℚ) : ERat.blt (.fin a) .pinf = true := rfl
@[simp] theorem ERat.blt_fn (a : ℚ) : ERat.blt (.fin a) .ninf = false := rfl
@[simp] theorem ERat.blt_fa (a : ℚ) : ERat.blt (.fin a) .nan = false := rfl
@[simp] theorem ERat.blt_p (b : ERat) : ERat.blt .pinf b = false := by cases b <;> rfl
@[simp] theorem ERat.blt_nf (b : ℚ) : ERat.blt .ninf (.fin b) = true := rfl
@[simp] theorem ERat.blt_np : ERat.blt .ninf .pinf = true := rfl
@[simp] theorem ERat.blt_nn : ERat.blt .ninf .ninf = false := rfl
@[simp] theorem ERat.blt_na : ERat.blt .ninf .nan = false := rfl
@[simp] theorem ERat.blt_a (b : ERat) : ERat.blt .nan b = false := by cases b <;> rfl

@[simp] theorem ERat.isnan_f (a : ℚ) : (ERat.fin a).isnan = false := rfl
@[simp] theorem ERat.isnan_p : ERat.pinf.isnan = false := rfl
@[simp] theorem ERat.isnan_n : ERat.ninf.isnan = false := rfl
@[simp] theorem ERat.isnan_a : ERat.nan.isnan = true := rfl

@[simp] theorem ERat.isFin_f (a : ℚ) : (ERat.fin a).isFin = true := rfl
@[simp] theorem ERat.isFin_p : ERat.pinf.isFin = false := rfl
@[simp] theorem ERat.isFin_n : ERat.ninf.isFin = false := rfl
@[simp] theorem ERat.isFin_a : ERat.nan.isFin = false := rfl

@[simp] theorem ERat.sqrtE_f (q : ℚ) :
    ERat.sqrtE (.fin q) = if q < 0 then .nan else .fin (Rat.sqrt q) := rfl
@[simp] theorem ERat.sqrtE_p : ERat.sqrtE .pinf = .pinf := rfl
@[simp] theorem ERat.sqrtE_n : ERat.sqrtE .ninf = .nan := rfl
@[simp] theorem ERat.sqrtE_a : ERat.sqrtE .nan = .nan := rfl

@[simp] theorem ERat.absE_f (a : ℚ) : ERat.absE (.fin a) = .fin |a| := rfl
@[simp] theorem ERat.absE_p : ERat.absE .pinf = .pinf := rfl
@[simp] theorem ERat.absE_n : ERat.absE .ninf = .pinf := rfl
@[simp] theorem ERat.absE_a : ERat.absE .nan = .nan := rfl

@[simp] theorem ERat.minE_eq (a b : ERat) :
    ERat.minE a b = if a.isnan || b.isnan then .nan else if ERat.blt b a then b else a := rfl

@[simp] theorem nanToZero_eq (a : ERat) :
    nanToZero a = if a.isnan then ERat.fin 0 else a := rfl

theorem rat_sqrt_one : Rat.sqrt 1 = 1 := by
  have h1 : (1 : ℚ).num = 1 := rfl
  have h2 : (1 : ℚ).den = 1 := rfl
  rw [Rat.sqrt, h1, h2]
  norm_num [Int.sqrt, Rat.mkRat_eq_div]

/-- Unfolding one loop pass when the body continues. -/
theorem vegasLoop_cont_step (p : VParams) (o : Oracle) (fuel : ℕ)
    (s s' : VState) (h : vegasBody p o s = .cont s') :
    vegasLoop p o (fuel + 1) s = vegasLoop p o fuel s' := by
  simp [vegasLoop, h]

/-- Unfolding one loop pass when the body breaks. -/
theorem vegasLoop_brk_step (p : VParams) (o : Oracle) (fuel : ℕ)
    (s s' : VState) (k : BreakKind) (h : vegasBody p o s = .brk s' k) :
    vegasLoop p o (fuel + 1) s = .done s' k := by
  simp [vegasLoop, h]

theorem ERat.isFin_add (a b : ERat) :
    (ERat.add a b).isFin = (a.isFin && b.isFin) := by
  cases a <;> cases b <;> rfl

theorem ERat.add_fin (a b : ℚ) :
    ERat.add (ERat.fin a) (ERat.fin b) = ERat.fin (a + b) := rfl

theorem ERat.div_fin (a b : ℚ) (hb : b ≠ 0) :
    ERat.div (ERat.fin a) (ERat.fin b) = ERat.fin (a / b) := by
  simp [ERat.div, hb]

theorem ERat.div_fin_zero_notFin (a : ℚ) :
    (ERat.div (ERat.fin a) (ERat.fin 0)).isFin = false := by
  simp only [ERat.div, if_pos rfl]
  split_ifs <;> rfl

theorem ERat.blt_asymm {a b : ERat} (h : ERat.blt a b = true) :
    ERat.blt b a = false := by
  cases a <;> cases b <;> simp_all [ERat.blt]
  exact le_of_lt h

theorem vegasCheck_cont_facts (p : VParams) (it : ℕ) (fevals : ℚ) (sN : ERat)
    (results sigma2 : List ERat) (s' : VState)
    (h : vegasCheck p it fevals sN results sigma2 = .cont s') :
    s'.it = it ∧ it ≤ p.max_iterations := by
  revert h
  simp only [vegasCheck]
  split_ifs with h1 h2 h3 h4 h5 h6 <;> intro h <;>
    first
      | (cases h; exact ⟨rfl, Nat.le_of_not_lt h1⟩)
      | cases h

theorem vegasCheck_brk_it (p : VParams) (it : ℕ) (fevals : ℚ) (sN : ERat)
    (results sigma2 : List ERat) (s' : VState) (k : BreakKind)
    (h : vegasCheck p it fevals sN results sigma2 = .brk s' k) :
    s'.it = it := by
  revert h
  simp only [vegasCheck]
  split_ifs <;> intro h <;> cases h <;> rfl

theorem vegasBody_cont_facts (p : VParams) (o : Oracle) (s s' : VState)
    (h : vegasBody p o s = .cont s') :
    s'.it = s.it + 1 ∧ s'.it ≤ p.max_iterations := by
  obtain ⟨h1, h2⟩ := vegasCheck_cont_facts _ _ _ _ _ _ _ h
  exact ⟨h1, h1 ▸ h2⟩

theorem vegasBody_brk_it (p : VParams) (o : Oracle) (s s' : VState)
    (k : BreakKind) (h : vegasBody p o s = .brk s' k) :
    s'.it = s.it + 1 :=
  vegasCheck_brk_it _ _ _ _ _ _ _ _ h

/-- If the loop has at least `max_iterations + 1 - it` fuel, it always
reaches a break, with the final iteration counter at most
`max_iterations + 1`. -/
theorem vegasLoop_done (p : VParams) (o : Oracle) :
    ∀ (fuel : ℕ) (s : VState), s.it ≤ p.max_iterations →
      p.max_iterations + 1 ≤ s.it + fuel →
      ∃ s' k, vegasLoop p o fuel s = .done s' k ∧ s'.it ≤ p.max_iterations + 1 := by
  intro fuel
  induction fuel with
  | zero => intro s h1 h2; omega
  | succ fuel ih =>
      intro s h1 h2
      simp only [vegasLoop]
      cases hb : vegasBody p o s with
      | brk s' k =>
          refine ⟨s', k, rfl, ?_⟩
          have := vegasBody_brk_it p o s s' k hb
          omega
      | cont s' =>
          obtain ⟨hit, hle⟩ := vegasBody_cont_facts p o s s' hb
          exact ih s' hle (by omega)

theorem flatten_replicate_singleton {α : Type} (n : ℕ) (x : α) :
    (List.replicate n [x]).flatten = List.replicate n x := by
  induction n with
  | zero => rfl
  | succ n ih => simp [List.replicate_succ, ih]

theorem chosenDomain_laguerre (dim : ℕ) (ud : Option (List (ERat × ERat))) :
    chosenDomain gaussLaguerreSelf dim ud
      = List.replicate dim (ERat.fin 0, ERat.pinf) := by
  simp [chosenDomain, gaussLaguerreSelf, flatten_replicate_singleton]

theorem chosenDomain_hermite (dim : ℕ) (ud : Option (List (ERat × ERat))) :
    chosenDomain gaussHermiteSelf dim ud
      = List.replicate dim (ERat.ninf, ERat.pinf) := by
  simp [chosenDomain, gaussHermiteSelf, flatten_replicate_singleton]

/-! ## Claim theorems -/

/-- Claim C2 (amended): for every parameter set and every behaviour of
the sampling iteration, the while loop of `VEGAS.integrate` terminates
— it reaches one of the abort breaks within `max_iterations + 1`
sampling iterations (the iteration-count check runs after the loop
body, so one iteration beyond `max_iterations` can execute), and
`integrate` then returns the combined estimate
`self._get_result()` of the final state; no error is raised when
`eps_rel`/`eps_abs` were not met.  (The original bound of at most
`max_iterations` iterations is refuted by
`c2_iteration_count_counterexample`.) -/
theorem c2_loop_termination_amended (p : VParams) (o : Oracle)
    (wo : ℕ → ERat × ERat) (prior : VState) :
    ∃ s k, vegasLoop p o (p.max_iterations + 2) (loopEntry p wo) = .done s k
      ∧ s.it ≤ p.max_iterations + 1
      ∧ integrateCall prior p o wo = getResult s.results s.sigma2 := by
  obtain ⟨s, k, hdone, hit⟩ :=
    vegasLoop_done p o (p.max_iterations + 2) (loopEntry p wo)
      (by simp [loopEntry]) (by simp [loopEntry])
  refine ⟨s, k, hdone, hit, ?_⟩
  show (match vegasLoop p o (p.max_iterations + 2) (loopEntry p wo) with
    | .done s _ => getResult s.results s.sigma2
    | .fuelOut s => getResult s.results s.sigma2) = getResult s.results s.sigma2
  rw [hdone]

/-- Claim C2, counterexample to the stated iteration bound: with
`N = 120`, `max_iterations = 5` and an iteration behaviour that
records estimate 1 with variance 0 while consuming 2 evaluations, the
loop runs 6 sampling iterations (one more than `max_iterations`)
before the iteration-count break fires, and the evaluation budget is
never exhausted (12 evaluations used; the budget break needs more than
120 - 24 = 96). -/
theorem c2_iteration_count_counterexample :
    vegasLoop ⟨120, 5, ERat.fin 0, ERat.fin 0, false⟩
        (fun _ _ => ⟨ERat.fin 1, ERat.fin 0, 2⟩) 7
        (loopEntry ⟨120, 5, ERat.fin 0, ERat.fin 0, false⟩
          (fun _ => (ERat.fin 0, ERat.fin 0)))
      = .done ⟨6, 12, ERat.fin 24,
          [ERat.fin 1, ERat.fin 1, ERat.fin 1, ERat.fin 1, ERat.fin 1, ERat.fin 1],
          [ERat.fin 0, ERat.fin 0, ERat.fin 0, ERat.fin 0, ERat.fin 0, ERat.fin 0]⟩
          .maxIter
    ∧ 5 < 6
    ∧ ERat.blt (ERat.sub (ERat.fin 120) (ERat.fin 24)) (ERat.fin 12) = false := by
  have h0 : loopEntry ⟨120, 5, ERat.fin 0, ERat.fin 0, false⟩
      (fun _ => (ERat.fin 0, ERat.fin 0)) = ⟨0, 0, ERat.fin 24, [], []⟩ := by
    norm_num [loopEntry]
  have hb1 : vegasBody ⟨120, 5, ERat.fin 0, ERat.fin 0, false⟩
      (fun _ _ => ⟨ERat.fin 1, ERat.fin 0, 2⟩) ⟨0, 0, ERat.fin 24, [], []⟩
      = .cont ⟨1, 2, ERat.fin 24, [ERat.fin 1], [ERat.fin 0]⟩ := by
    norm_num [vegasBody, vegasCheck]
  have hb2 : vegasBody ⟨120, 5, ERat.fin 0, ERat.fin 0, false⟩
      (fun _ _ => ⟨ERat.fin 1, ERat.fin 0, 2⟩)
      ⟨1, 2, ERat.fin 24, [ERat.fin 1], [ERat.fin 0]⟩
      = .cont ⟨2, 4, ERat.fin 24, [ERat.fin 1, ERat.fin 1],
          [ERat.fin 0, ERat.fin 0]⟩ := by
    norm_num [vegasBody, vegasCheck]
  have hb3 : vegasBody ⟨120, 5, ERat.fin 0, ERat.fin 0, false⟩
      (fun _ _ => ⟨ERat.fin 1, ERat.fin 0, 2⟩)
      ⟨2, 4, ERat.fin 24, [ERat.fin 1, ERat.fin 1], [ERat.fin 0, ERat.fin 0]⟩
      = .cont ⟨3, 6, ERat.fin 24, [ERat.fin 1, ERat.fin 1, ERat.fin 1],
          [ERat.fin 0, ERat.fin 0, ERat.fin 0]⟩ := by
    norm_num [vegasBody, vegasCheck]
  have hb4 : vegasBody ⟨120, 5, ERat.fin 0, ERat.fin 0, false⟩
      (fun _ _ => ⟨ERat.fin 1, ERat.fin 0, 2⟩)
      ⟨3, 6, ERat.fin 24, [ERat.fin 1, ERat.fin 1, ERat.fin 1],
        [ERat.fin 0, ERat.fin 0, ERat.fin 0]⟩
      = .cont ⟨4, 8, ERat.fin 24,
          [ERat.fin 1, ERat.fin 1, ERat.fin 1, ERat.fin 1],
          [ERat.fin 0, ERat.fin 0, ERat.fin 0, ERat.fin 0]⟩ := by
    norm_num [vegasBody, vegasCheck]
  have hb5 : vegasBody ⟨120, 5, ERat.fin 0, ERat.fin 0, false⟩
      (fun _ _ => ⟨ERat.fin 1, ERat.fin 0, 2⟩)
      ⟨4, 8, ERat.fin 24, [ERat.fin 1, ERat.fin 1, ERat.fin 1, ERat.fin 1],
        [ERat.fin 0, ERat.fin 0, ERat.fin 0, ERat.fin 0]⟩
      = .cont ⟨5, 10, ERat.fin 24,
          [ERat.fin 1, ERat.fin 1, ERat.fin 1, ERat.fin 1, ERat.fin 1],
          [ERat.fin 0, ERat.fin 0, ERat.fin 0, ERat.fin 0, ERat.fin 0]⟩ := by
    norm_num [vegasBody, vegasCheck, getResult, getError, getChisq, resNum,
      resDen, meanE, VParams.nInc]
  have hb6 : vegasBody ⟨120, 5, ERat.fin 0, ERat.fin 0, false⟩
      (fun _ _ => ⟨ERat.fin 1, ERat.fin 0, 2⟩)
      ⟨5, 10, ERat.fin 24,
        [ERat.fin 1, ERat.fin 1, ERat.fin 1, ERat.fin 1, ERat.fin 1],
        [ERat.fin 0, ERat.fin 0, ERat.fin 0, ERat.fin 0, ERat.fin 0]⟩
      = .brk ⟨6, 12, ERat.fin 24,
          [ERat.fin 1, ERat.fin 1, ERat.fin 1, ERat.fin 1, ERat.fin 1, ERat.fin 1],
          [ERat.fin 0, ERat.fin 0, ERat.fin 0, ERat.fin 0, ERat.fin 0, ERat.fin 0]⟩
          .maxIter := by
    norm_num [vegasBody, vegasCheck]
  refine ⟨?_, by norm_num, by norm_num⟩
  rw [h0]
  have e1 := vegasLoop_cont_step _ _ 6 _ _ hb1
  have e2 := vegasLoop_cont_step _ _ 5 _ _ hb2
  have e3 := vegasLoop_cont_step _ _ 4 _ _ hb3
  have e4 := vegasLoop_cont_step _ _ 3 _ _ hb4
  have e5 := vegasLoop_cont_step _ _ 2 _ _ hb5
  have e6 := vegasLoop_brk_step _ _ 1 _ _ _ hb6
  rw [show (7 : ℕ) = 6 + 1 from rfl, e1, show (6 : ℕ) = 5 + 1 from rfl, e2,
    show (5 : ℕ) = 4 + 1 from rfl, e3, show (4 : ℕ) = 3 + 1 from rfl, e4,
    show (3 : ℕ) = 2 + 1 from rfl, e5, show (2 : ℕ) = 1 + 1 from rfl, e6]

/-- Claim C3 (amended): on every 5th sampling iteration (when neither
the iteration-count break nor the budget break fires first), the loop
stops with the Converged break exactly when
`(acc < eps_rel OR error < eps_abs) AND chi2/5 < 1`, where `error` is
`_get_error()`, `I` is `_get_result()`, `chi2` is `_get_chisq()`, and
`acc = error / I` divides the error by the signed combined estimate
`I` itself — not by `|I|` — with a NaN ratio treated as 0.  (The
stated `error/|I|` form is refuted by
`c3_convergence_abs_counterexample`.) -/
theorem c3_convergence_condition_amended (p : VParams) (it : ℕ) (fevals : ℚ)
    (sN : ERat) (results sigma2 : List ERat)
    (h5 : it % 5 = 0) (hmax : ¬ p.max_iterations < it)
    (hbud : ERat.blt (ERat.sub (ERat.fin (p.N : ℚ)) sN) (ERat.fin fevals) = false) :
    (∃ s', vegasCheck p it fevals sN results sigma2 = .brk s' .converged) ↔
      ((ERat.blt (nanToZero (ERat.div (getError sigma2) (getResult results sigma2)))
            p.eps_rel = true
          ∨ ERat.blt (getError sigma2) p.eps_abs = true)
        ∧ ERat.blt (ERat.div (getChisq results sigma2) (ERat.fin 5)) (ERat.fin 1)
            = true) := by
  have hbud' : ¬ (ERat.blt (ERat.sub (ERat.fin (p.N : ℚ)) sN) (ERat.fin fevals)
      = true) := by rw [hbud]; exact Bool.false_ne_true
  have hout : vegasCheck p it fevals sN results sigma2 =
      (if ((ERat.blt (nanToZero (ERat.div (getError sigma2) (getResult results sigma2)))
              p.eps_rel
            || ERat.blt (getError sigma2) p.eps_abs)
          && ERat.blt (ERat.div (getChisq results sigma2) (ERat.fin 5)) (ERat.fin 1))
          = true then
        StepRes.brk ⟨it, fevals, sN, results, sigma2⟩ .converged
      else if ERat.blt (ERat.div (getChisq results sigma2) (ERat.fin 5)) (ERat.fin 1)
          = true then
        StepRes.cont ⟨it, fevals,
          ERat.minE (ERat.add sN (ERat.fin (p.nInc : ℚ)))
            (ERat.mul sN
              (ERat.sqrtE (ERat.div
                (nanToZero (ERat.div (getError sigma2) (getResult results sigma2)))
                (ERat.add p.eps_rel (ERat.fin (1 / 100000000)))))),
          [], []⟩
      else if ERat.blt (ERat.fin 1) (ERat.div (getChisq results sigma2) (ERat.fin 5))
          = true then
        StepRes.cont ⟨it, fevals, ERat.add sN (ERat.fin (p.nInc : ℚ)), [], []⟩
      else StepRes.cont ⟨it, fevals, sN, results, sigma2⟩) := by
    simp only [vegasCheck]
    rw [if_neg hmax, if_neg hbud', if_pos h5]
  rw [hout]
  by_cases hc : ((ERat.blt (nanToZero (ERat.div (getError sigma2)
          (getResult results sigma2))) p.eps_rel
        || ERat.blt (getError sigma2) p.eps_abs)
      && ERat.blt (ERat.div (getChisq results sigma2) (ERat.fin 5)) (ERat.fin 1))
      = true
  · rw [if_pos hc]
    simp only [Bool.and_eq_true, Bool.or_eq_true] at hc
    exact ⟨fun _ => hc, fun _ => ⟨_, rfl⟩⟩
  · rw [if_neg hc]
    constructor
    · rintro ⟨s', hs'⟩
      exfalso
      revert hs'
      split_ifs <;> intro hs' <;> cases hs'
    · rintro ⟨h1, h2⟩
      exact absurd (by simp only [Bool.and_eq_true, Bool.or_eq_true]; exact ⟨h1, h2⟩) hc

/-- Claim C3, witness: a concrete 5th-iteration state with five
records of estimate 1, variance 5 (`eps_rel = eps_abs = 0`). -/
theorem c3_convergence_condition_amended_witness :
    (∃ s', vegasCheck ⟨10000, 20, ERat.fin 0, ERat.fin 0, false⟩ 5 10 (ERat.fin 100)
        [ERat.fin 1, ERat.fin 1, ERat.fin 1, ERat.fin 1, ERat.fin 1]
        [ERat.fin 5, ERat.fin 5, ERat.fin 5, ERat.fin 5, ERat.fin 5]
        = .brk s' .converged) ↔
      ((ERat.blt (nanToZero (ERat.div
            (getError [ERat.fin 5, ERat.fin 5, ERat.fin 5, ERat.fin 5, ERat.fin 5])
            (getResult [ERat.fin 1, ERat.fin 1, ERat.fin 1, ERat.fin 1, ERat.fin 1]
              [ERat.fin 5, ERat.fin 5, ERat.fin 5, ERat.fin 5, ERat.fin 5])))
          (ERat.fin 0) = true
        ∨ ERat.blt (getError [ERat.fin 5, ERat.fin 5, ERat.fin 5, ERat.fin 5, ERat.fin 5])
            (ERat.fin 0) = true)
      ∧ ERat.blt (ERat.div (getChisq
            [ERat.fin 1, ERat.fin 1, ERat.fin 1, ERat.fin 1, ERat.fin 1]
            [ERat.fin 5, ERat.fin 5, ERat.fin 5, ERat.fin 5, ERat.fin 5])
          (ERat.fin 5)) (ERat.fin 1) = true) :=
  c3_convergence_condition_amended ⟨10000, 20, ERat.fin 0, ERat.fin 0, false⟩ 5 10
    (ERat.fin 100) _ _ (by norm_num) (by norm_num) (by norm_num)

/-- Claim C3, counterexample to the `error/|I|` form: with five records
of estimate -1 and variance 5 at iteration 5 (`eps_rel = eps_abs = 0`),
the code's `acc = err/res` is negative, so `acc < eps_rel` holds and
the loop stops Converged, while the claimed condition with
`error/|I|` is false. -/
theorem c3_convergence_abs_counterexample :
    vegasCheck ⟨10000, 20, ERat.fin 0, ERat.fin 0, false⟩ 5 10 (ERat.fin 100)
        [ERat.fin (-1), ERat.fin (-1), ERat.fin (-1), ERat.fin (-1), ERat.fin (-1)]
        [ERat.fin 5, ERat.fin 5, ERat.fin 5, ERat.fin 5, ERat.fin 5]
      = .brk ⟨5, 10, ERat.fin 100,
          [ERat.fin (-1), ERat.fin (-1), ERat.fin (-1), ERat.fin (-1), ERat.fin (-1)],
          [ERat.fin 5, ERat.fin 5, ERat.fin 5, ERat.fin 5, ERat.fin 5]⟩ .converged
    ∧ c3SpecConverged
        [ERat.fin (-1), ERat.fin (-1), ERat.fin (-1), ERat.fin (-1), ERat.fin (-1)]
        [ERat.fin 5, ERat.fin 5, ERat.fin 5, ERat.fin 5, ERat.fin 5]
        (ERat.fin 0) (ERat.fin 0) = false := by
  constructor
  · norm_num [vegasCheck, getResult, getError, getChisq, resNum, resDen, meanE,
      rat_sqrt_one]
  · norm_num [c3SpecConverged, getResult, getError, getChisq, resNum, resDen,
      meanE, rat_sqrt_one]

/-- Claim C4 (amended): when the 5-iteration stability check finds
`chi2/5` strictly greater than 1 (and no earlier break fired), the
next iteration's sampling budget is grown by exactly one increment
`N // max_iterations` and both record lists are cleared before the
loop continues.  At `chi2/5 = 1` exactly, the code falls through both
comparison branches and neither grows the budget nor clears the
records (`c4_chisq_boundary_counterexample`). -/
theorem c4_instability_growth_amended (p : VParams) (it : ℕ) (fevals : ℚ)
    (sN : ERat) (results sigma2 : List ERat)
    (h5 : it % 5 = 0) (hmax : ¬ p.max_iterations < it)
    (hbud : ERat.blt (ERat.sub (ERat.fin (p.N : ℚ)) sN) (ERat.fin fevals) = false)
    (hchi : ERat.blt (ERat.fin 1) (ERat.div (getChisq results sigma2) (ERat.fin 5))
      = true) :
    vegasCheck p it fevals sN results sigma2
      = .cont ⟨it, fevals, ERat.add sN (ERat.fin (p.nInc : ℚ)), [], []⟩ := by
  have hbud' : ¬ (ERat.blt (ERat.sub (ERat.fin (p.N : ℚ)) sN) (ERat.fin fevals)
      = true) := by rw [hbud]; exact Bool.false_ne_true
  have hlt : ERat.blt (ERat.div (getChisq results sigma2) (ERat.fin 5)) (ERat.fin 1)
      = false := ERat.blt_asymm hchi
  simp only [vegasCheck]
  rw [if_neg hmax, if_neg hbud', if_pos h5]
  simp [hlt, hchi]

/-- Claim C4, witness: five records `[0, 0, 0, 0, 10]` with variances 4
give `chi2/5 = 4 > 1`; the step grows the budget by
`N // max_iterations = 500` and clears both record lists. -/
theorem c4_instability_growth_amended_witness :
    vegasCheck ⟨10000, 20, ERat.fin 0, ERat.fin 0, false⟩ 5 10 (ERat.fin 100)
        [ERat.fin 0, ERat.fin 0, ERat.fin 0, ERat.fin 0, ERat.fin 10]
        [ERat.fin 4, ERat.fin 4, ERat.fin 4, ERat.fin 4, ERat.fin 4]
      = .cont ⟨5, 10, ERat.add (ERat.fin 100) (ERat.fin 500), [], []⟩ := by
  rw [c4_instability_growth_amended ⟨10000, 20, ERat.fin 0, ERat.fin 0, false⟩ 5 10
    (ERat.fin 100) _ _ (by norm_num) (by norm_num) (by norm_num)
    (by norm_num [getChisq, getResult, resNum, resDen, meanE])]
  norm_num [VParams.nInc]

/-- Claim C4, counterexample at the boundary: five records
`[5/2, -5/2, 5/2, -5/2, 0]` with variances 5 give `chi2/5 = 1`
exactly (so the claim's `chi2/5 >= 1` holds) while the error target is
not met, yet the step neither grows the budget nor clears the record
lists — it falls through with the state unchanged. -/
theorem c4_chisq_boundary_counterexample :
    vegasCheck ⟨10000, 20, ERat.fin 0, ERat.fin 0, false⟩ 5 10 (ERat.fin 100)
        [ERat.fin (5/2), ERat.fin (-5/2), ERat.fin (5/2), ERat.fin (-5/2), ERat.fin 0]
        [ERat.fin 5, ERat.fin 5, ERat.fin 5, ERat.fin 5, ERat.fin 5]
      = .cont ⟨5, 10, ERat.fin 100,
          [ERat.fin (5/2), ERat.fin (-5/2), ERat.fin (5/2), ERat.fin (-5/2), ERat.fin 0],
          [ERat.fin 5, ERat.fin 5, ERat.fin 5, ERat.fin 5, ERat.fin 5]⟩
    ∧ ERat.div (getChisq
          [ERat.fin (5/2), ERat.fin (-5/2), ERat.fin (5/2), ERat.fin (-5/2), ERat.fin 0]
          [ERat.fin 5, ERat.fin 5, ERat.fin 5, ERat.fin 5, ERat.fin 5]) (ERat.fin 5)
        = ERat.fin 1
    ∧ ERat.blt (nanToZero (ERat.div
          (getError [ERat.fin 5, ERat.fin 5, ERat.fin 5, ERat.fin 5, ERat.fin 5])
          (getResult
            [ERat.fin (5/2), ERat.fin (-5/2), ERat.fin (5/2), ERat.fin (-5/2), ERat.fin 0]
            [ERat.fin 5, ERat.fin 5, ERat.fin 5, ERat.fin 5, ERat.fin 5])))
        (ERat.fin 0) = false
    ∧ ERat.blt (getError [ERat.fin 5, ERat.fin 5, ERat.fin 5, ERat.fin 5, ERat.fin 5])
        (ERat.fin 0) = false := by
  refine ⟨?_, ?_, ?_, ?_⟩ <;>
    norm_num [vegasCheck, getResult, getError, getChisq, resNum, resDen, meanE,
      rat_sqrt_one]

/-- Claim C6: the warmup appends one (estimate, variance) record per
warmup iteration and then clears both record lists, so the record
lists are empty when the main sampling loop starts, for any warmup
behaviour; `VEGAS.integrate` runs the warmup with a fixed count of 5
iterations.  Hence warmup estimates never enter the combined
estimate, which is computed from the loop records only. -/
theorem c6_warmup_records_discarded (p : VParams) (wo : ℕ → ERat × ERat)
    (rs ss : List ERat) :
    warmupGrid wo warmupIterations rs ss = ([], [])
    ∧ (loopEntry p wo).results = [] ∧ (loopEntry p wo).sigma2 = []
    ∧ warmupIterations = 5 := by
  refine ⟨rfl, ?_, ?_, rfl⟩
  · simp [loopEntry, warmupGrid, listClear]
  · simp [loopEntry, warmupGrid, listClear]

/-- Claim C8: the result of `integrate` does not depend on instance
state left over from a previous call — every field consulted by the
run is reinitialized from the call's own arguments (vegas.py lines
68-110), so two calls with the same integrand behaviour, dimensions,
budget, domain, seed and options (here: the same oracles and
parameters) return the same estimate. -/
theorem c8_call_determinism (s1 s2 : VState) (p : VParams) (o : Oracle)
    (wo : ℕ → ERat × ERat) (dim : ℤ) (ud : Option (List (ERat × ERat))) :
    integrateCall s1 p o wo = integrateCall s2 p o wo
    ∧ integrateVEGASTop s1 dim ud p o wo = integrateVEGASTop s2 dim ud p o wo := by
  constructor <;> rfl

/-- Claim C9: for the Gauss-Laguerre and Gauss-Hermite rules,
`Gaussian.integrate` replaces any caller-supplied integration domain
with the fixed default (`[0, inf)` per dimension for Laguerre,
`(-inf, inf)` for Hermite), so the returned value is the same for any
two caller-supplied domains. -/
theorem c9_gauss_fixed_domain (roots : ℕ → List ℚ × List ℚ)
    (evalRows : List (List ERat) → List (List ERat) → List ERat)
    (dim N : ℕ) (ud1 ud2 : Option (List (ERat × ERat))) :
    integrateGauss gaussLaguerreSelf roots evalRows dim N ud1
        = integrateGauss gaussLaguerreSelf roots evalRows dim N ud2
    ∧ integrateGauss gaussHermiteSelf roots evalRows dim N ud1
        = integrateGauss gaussHermiteSelf roots evalRows dim N ud2
    ∧ chosenDomain gaussLaguerreSelf dim ud1
        = List.replicate dim (ERat.fin 0, ERat.pinf)
    ∧ chosenDomain gaussHermiteSelf dim ud1
        = List.replicate dim (ERat.ninf, ERat.pinf) := by
  refine ⟨?_, ?_, chosenDomain_laguerre dim ud1, chosenDomain_hermite dim ud1⟩
  · simp only [integrateGauss, chosenDomain_laguerre]
  · simp only [integrateGauss, chosenDomain_hermite]

/-- Claim C10: every warmup sample coordinate is a uniform `[0,1)`
draw multiplied by `0.999999`, hence lies in `[0, 0.999999)` and in
particular is strictly below 1, which keeps the map's bin index
`floor(y * n_intervals)` at most `n_intervals - 1`. -/
theorem c10_warmup_sample_bounds (rng : ℕ → ℚ) (dim nIntervals : ℕ)
    (hr : ∀ j, 0 ≤ rng j ∧ rng j < 1) (hn : 1 ≤ nIntervals) :
    ∀ y ∈ warmupSampleRow rng dim,
      0 ≤ y ∧ y < 999999 / 1000000 ∧ y < 1
        ∧ binIndex y nIntervals ≤ (nIntervals : ℤ) - 1 := by
  intro y hy
  simp only [warmupSampleRow, List.mem_map, List.mem_range] at hy
  obtain ⟨j, _, rfl⟩ := hy
  have h0 : (0 : ℚ) ≤ rng j := (hr j).1
  have h1 : rng j < 1 := (hr j).2
  have hy0 : (0 : ℚ) ≤ warmupYrnd (rng j) := by
    unfold warmupYrnd; positivity
  have hyc : warmupYrnd (rng j) < 999999 / 1000000 := by
    unfold warmupYrnd
    calc rng j * (999999 / 1000000) < 1 * (999999 / 1000000) := by
          apply mul_lt_mul_of_pos_right h1; norm_num
      _ = 999999 / 1000000 := one_mul _
  have hy1 : warmupYrnd (rng j) < 1 := lt_trans hyc (by norm_num)
  refine ⟨hy0, hyc, hy1, ?_⟩
  have hnpos : (0 : ℚ) < (nIntervals : ℚ) := by
    exact_mod_cast Nat.lt_of_lt_of_le Nat.zero_lt_one hn
  have hmul : warmupYrnd (rng j) * (nIntervals : ℚ) < (nIntervals : ℚ) := by
    calc warmupYrnd (rng j) * (nIntervals : ℚ)
        < 1 * (nIntervals : ℚ) := mul_lt_mul_of_pos_right hy1 hnpos
      _ = (nIntervals : ℚ) := one_mul _
  have hfl : binIndex (warmupYrnd (rng j)) nIntervals < (nIntervals : ℤ) := by
    unfold binIndex
    exact Int.floor_lt.mpr (by exact_mod_cast hmul)
  omega

/-- Claim C10, witness: a concrete draw `u = 1/2` in a 3-dimensional
warmup row with 7 map intervals. -/
theorem c10_warmup_sample_bounds_witness :
    0 ≤ warmupYrnd (1 / 2) ∧ warmupYrnd (1 / 2) < 999999 / 1000000
      ∧ warmupYrnd (1 / 2) < 1 ∧ binIndex (warmupYrnd (1 / 2)) 7 ≤ (7 : ℤ) - 1 :=
  c10_warmup_sample_bounds (fun _ => 1 / 2) 3 7 (fun _ => by norm_num)
    (by norm_num) (warmupYrnd (1 / 2))
    (List.mem_map.mpr ⟨0, List.mem_range.mpr (by norm_num), rfl⟩)

/-! ## `_get_result` fold lemmas (claim C1) -/

theorem resNumAux_fin (l : List (ℚ × ℚ)) (a : ℚ) (h : ∀ p ∈ l, p.2 ≠ 0) :
    ((l.map fun p => (ERat.fin p.1, ERat.fin p.2)).foldl
        (fun acc p => ERat.add acc (ERat.div p.1 p.2)) (ERat.fin a))
      = ERat.fin (a + (l.map fun p => p.1 / p.2).sum) := by
  induction l generalizing a with
  | nil => simp
  | cons q l ih =>
      have hq : q.2 ≠ 0 := h q (List.mem_cons_self q l)
      simp only [List.map_cons, List.foldl_cons, List.sum_cons]
      rw [show ERat.div (ERat.fin q.1) (ERat.fin q.2) = ERat.fin (q.1 / q.2) by
        simp [hq]]
      rw [ERat.add_ff, ih _ (fun p hp => h p (List.mem_cons_of_mem q hp))]
      congr 1
      ring

theorem resDenAux_fin (l : List (ℚ × ℚ)) (a : ℚ) (h : ∀ p ∈ l, p.2 ≠ 0) :
    ((l.map fun p => (ERat.fin p.1, ERat.fin p.2)).foldl
        (fun acc p => ERat.add acc (ERat.div (ERat.fin 1) p.2)) (ERat.fin a))
      = ERat.fin (a + (l.map fun p => 1 / p.2).sum) := by
  induction l generalizing a with
  | nil => simp
  | cons q l ih =>
      have hq : q.2 ≠ 0 := h q (List.mem_cons_self q l)
      simp only [List.map_cons, List.foldl_cons, List.sum_cons]
      rw [show ERat.div (ERat.fin 1) (ERat.fin q.2) = ERat.fin (1 / q.2) by
        simp [hq]]
      rw [ERat.add_ff, ih _ (fun p hp => h p (List.mem_cons_of_mem q hp))]
      congr 1
      ring

theorem foldl_add_notFin (f : ERat × ERat → ERat) (l : List (ERat × ERat)) :
    ∀ acc : ERat, acc.isFin = false →
      (l.foldl (fun a p => ERat.add a (f p)) acc).isFin = false := by
  induction l with
  | nil => intro acc hacc; simpa using hacc
  | cons q l ih =>
      intro acc hacc
      simp only [List.foldl_cons]
      exact ih _ (by rw [ERat.isFin_add, hacc, Bool.false_and])

theorem resNumAux_notFin (l : List (ℚ × ℚ)) (a : ℚ) (h : ∃ p ∈ l, p.2 = 0) :
    ((l.map fun p => (ERat.fin p.1, ERat.fin p.2)).foldl
        (fun acc p => ERat.add acc (ERat.div p.1 p.2)) (ERat.fin a)).isFin
      = false := by
  induction l generalizing a with
  | nil => simp at h
  | cons q l ih =>
      simp only [List.map_cons, List.foldl_cons]
      by_cases hq : q.2 = 0
      · apply foldl_add_notFin
        rw [ERat.isFin_add]
        have hdiv : (ERat.div (ERat.fin q.1) (ERat.fin q.2)).isFin = false := by
          rw [hq]; exact ERat.div_fin_zero_notFin q.1
        rw [hdiv, Bool.and_false]
      · obtain ⟨p, hp, hp0⟩ := h
        have hpl : p ∈ l := by
          rcases List.mem_cons.mp hp with h1 | h1
          · exact absurd (h1 ▸ hp0) hq
          · exact h1
        rw [show ERat.div (ERat.fin q.1) (ERat.fin q.2) = ERat.fin (q.1 / q.2) by
          simp [hq]]
        rw [ERat.add_ff]
        exact ih _ ⟨p, hpl, hp0⟩

theorem resDenAux_pinf_keep (l : List (ℚ × ℚ)) :
    ((l.map fun p => (ERat.fin p.1, ERat.fin p.2)).foldl
        (fun acc p => ERat.add acc (ERat.div (ERat.fin 1) p.2)) ERat.pinf)
      = ERat.pinf := by
  induction l with
  | nil => rfl
  | cons q l ih =>
      simp only [List.map_cons, List.foldl_cons]
      rw [show ERat.add ERat.pinf (ERat.div (ERat.fin 1) (ERat.fin q.2)) = ERat.pinf by
        by_cases hq : q.2 = 0 <;> simp [hq]]
      exact ih

theorem resDenAux_pinf (l : List (ℚ × ℚ)) (a : ℚ) (h : ∃ p ∈ l, p.2 = 0) :
    ((l.map fun p => (ERat.fin p.1, ERat.fin p.2)).foldl
        (fun acc p => ERat.add acc (ERat.div (ERat.fin 1) p.2)) (ERat.fin a))
      = ERat.pinf := by
  induction l generalizing a with
  | nil => simp at h
  | cons q l ih =>
      simp only [List.map_cons, List.foldl_cons]
      by_cases hq : q.2 = 0
      · rw [show ERat.add (ERat.fin a) (ERat.div (ERat.fin 1) (ERat.fin q.2))
            = ERat.pinf by simp [hq]]
        exact resDenAux_pinf_keep l
      · obtain ⟨p, hp, hp0⟩ := h
        have hpl : p ∈ l := by
          rcases List.mem_cons.mp hp with h1 | h1
          · exact absurd (h1 ▸ hp0) hq
          · exact h1
        rw [show ERat.div (ERat.fin 1) (ERat.fin q.2) = ERat.fin (1 / q.2) by
          simp [hq]]
        rw [ERat.add_ff]
        exact ih _ ⟨p, hpl, hp0⟩

theorem div_notFin_pinf (x : ERat) (hx : x.isFin = false) :
    ERat.div x ERat.pinf = ERat.nan := by
  cases x with
  | fin q => simp at hx
  | pinf => rfl
  | ninf => rfl
  | nan => rfl

theorem foldl_add_fin_list (l : List ℚ) (a : ℚ) :
    ((l.map ERat.fin).foldl ERat.add (ERat.fin a)) = ERat.fin (a + l.sum) := by
  induction l generalizing a with
  | nil => simp
  | cons q l ih =>
      simp only [List.map_cons, List.foldl_cons, List.sum_cons, ERat.add_ff]
      rw [ih]
      congr 1
      ring

theorem zip_fin_maps (l : List (ℚ × ℚ)) :
    ((l.map fun p => ERat.fin p.1).zip (l.map fun p => ERat.fin p.2))
      = l.map fun p => (ERat.fin p.1, ERat.fin p.2) :=
  List.zip_map' _ _ l

theorem zip_fst_snd (l : List (ℚ × ℚ)) :
    ((l.map Prod.fst).zip (l.map Prod.snd)) = l := by
  rw [List.zip_map']
  simp

/-- Claim C1: for every non-empty list of recorded (estimate, variance)
pairs with nonnegative variances, `_get_result` returns the
inverse-variance weighted mean `Σ(estimate/variance) / Σ(1/variance)`
when that quotient is finite (all variances positive); the quotient is
non-finite (NaN) exactly when some variance is zero, and then the
unweighted arithmetic mean of the estimates is returned instead.  In
particular for estimates `[1, 1.2]` with variances `[0.01, 0.04]` the
combined value is `1.04`. -/
theorem c1_get_result_inverse_variance (records : List (ℚ × ℚ))
    (hne : records ≠ []) (hnn : ∀ p ∈ records, 0 ≤ p.2) :
    (((ERat.div
          (resNum (records.map fun p => ERat.fin p.1)
            (records.map fun p => ERat.fin p.2))
          (resDen (records.map fun p => ERat.fin p.1)
            (records.map fun p => ERat.fin p.2))).isnan = true
        ↔ ∃ p ∈ records, p.2 = 0)
      ∧ ((∀ p ∈ records, 0 < p.2) →
          getResult (records.map fun p => ERat.fin p.1)
              (records.map fun p => ERat.fin p.2)
            = ERat.fin (invVarMeanQ (records.map Prod.fst) (records.map Prod.snd)))
      ∧ ((∃ p ∈ records, p.2 = 0) →
          getResult (records.map fun p => ERat.fin p.1)
              (records.map fun p => ERat.fin p.2)
            = ERat.fin (arithMeanQ (records.map Prod.fst))))
    ∧ getResult [ERat.fin 1, ERat.fin (6/5)] [ERat.fin (1/100), ERat.fin (1/25)]
        = ERat.fin (26/25) := by
  have hzero : ∀ (h0 : ∃ p ∈ records, p.2 = 0),
      ERat.div
          (resNum (records.map fun p => ERat.fin p.1)
            (records.map fun p => ERat.fin p.2))
          (resDen (records.map fun p => ERat.fin p.1)
            (records.map fun p => ERat.fin p.2))
        = ERat.nan := by
    intro h0
    have hden : resDen (records.map fun p => ERat.fin p.1)
        (records.map fun p => ERat.fin p.2) = ERat.pinf := by
      unfold resDen
      rw [zip_fin_maps]
      exact resDenAux_pinf records 0 h0
    have hnum : (resNum (records.map fun p => ERat.fin p.1)
        (records.map fun p => ERat.fin p.2)).isFin = false := by
      unfold resNum
      rw [zip_fin_maps]
      exact resNumAux_notFin records 0 h0
    rw [hden]
    exact div_notFin_pinf _ hnum
  have hposq : ∀ (hp : ∀ p ∈ records, 0 < p.2),
      ERat.div
          (resNum (records.map fun p => ERat.fin p.1)
            (records.map fun p => ERat.fin p.2))
          (resDen (records.map fun p => ERat.fin p.1)
            (records.map fun p => ERat.fin p.2))
        = ERat.fin ((records.map fun p => p.1 / p.2).sum
            / (records.map fun p => 1 / p.2).sum) := by
    intro hp
    have hnz : ∀ p ∈ records, p.2 ≠ 0 := fun p hq => ne_of_gt (hp p hq)
    have hnum : resNum (records.map fun p => ERat.fin p.1)
        (records.map fun p => ERat.fin p.2)
        = ERat.fin ((records.map fun p => p.1 / p.2).sum) := by
      unfold resNum
      rw [zip_fin_maps, resNumAux_fin records 0 hnz, zero_add]
    have hden : resDen (records.map fun p => ERat.fin p.1)
        (records.map fun p => ERat.fin p.2)
        = ERat.fin ((records.map fun p => 1 / p.2).sum) := by
      unfold resDen
      rw [zip_fin_maps, resDenAux_fin records 0 hnz, zero_add]
    have hdpos : 0 < (records.map fun p => 1 / p.2).sum := by
      apply List.sum_pos
      · intro x hx
        obtain ⟨p, hpmem, rfl⟩ := List.mem_map.mp hx
        exact one_div_pos.mpr (hp p hpmem)
      · simpa using hne
    rw [hnum, hden, ERat.div_ff, if_neg (ne_of_gt hdpos)]
  refine ⟨⟨?_, ?_, ?_⟩, ?_⟩
  · constructor
    · intro hnan
      by_contra hno
      push_neg at hno
      have hp : ∀ p ∈ records, 0 < p.2 := fun p hq =>
        lt_of_le_of_ne (hnn p hq) (Ne.symm (hno p hq))
      rw [hposq hp] at hnan
      simp at hnan
    · intro h0
      rw [hzero h0]
      rfl
  · intro hp
    unfold getResult
    rw [hposq hp]
    simp only [ERat.isnan_f, Bool.false_eq_true, if_false]
    unfold invVarMeanQ
    rw [zip_fst_snd]
  · intro h0
    unfold getResult
    rw [hzero h0]
    simp only [ERat.isnan_a, if_true]
    unfold meanE
    have hmap : (records.map fun p => ERat.fin p.1)
        = (records.map Prod.fst).map ERat.fin := by
      rw [List.map_map]
      rfl
    rw [hmap, foldl_add_fin_list, zero_add]
    have hlen : ((records.map Prod.fst).map ERat.fin).length = records.length := by
      simp
    rw [hlen]
    have hlnz : (records.length : ℚ) ≠ 0 :=
      Nat.cast_ne_zero.mpr (Nat.pos_iff_ne_zero.mp (List.length_pos.mpr hne))
    unfold arithMeanQ
    simp [hlnz]
  · norm_num [getResult, resNum, resDen, meanE]

/-- Claim C1, witness: the spec's synthetic records
`estimate = [1, 6/5]`, `variance = [1/100, 1/25]` give the combined
value `26/25 = 1.04`. -/
theorem c1_get_result_inverse_variance_witness :
    getResult [ERat.fin 1, ERat.fin (6/5)] [ERat.fin (1/100), ERat.fin (1/25)]
      = ERat.fin (26/25) :=
  (c1_get_result_inverse_variance [(1, 1/100), (6/5, 1/25)] (by simp)
    (by norm_num)).2

/-! ## `_get_error` lemmas (claim C5) -/

theorem foldl_inv_sum (l : List ℚ) (a : ℚ) :
    l.foldl (fun acc s => acc + 1 / s) a = a + (l.map fun s => 1 / s).sum := by
  induction l generalizing a with
  | nil => simp
  | cons q l ih =>
      simp only [List.foldl_cons, List.map_cons, List.sum_cons]
      rw [ih]
      ring

/-- Claim C5: for every non-empty list of positive recorded variances,
the reported error `1.0 / anp.sqrt(Σ 1/variance_k)` equals the spec's
`sqrt(1 / Σ(1/variance_k))`; in particular for variances
`[0.01, 0.04]` the error is `sqrt(1/125)`, which lies strictly between
`0.0894` and `0.0895`. -/
theorem c5_error_estimate (sigma2 : List ℚ) (hne : sigma2 ≠ [])
    (hpos : ∀ s ∈ sigma2, 0 < s) :
    getErrorR sigma2 = errSpecR sigma2
    ∧ getErrorR [1/100, 1/25] = Real.sqrt (1/125)
    ∧ (0.0894 : ℝ) < getErrorR [1/100, 1/25]
    ∧ getErrorR [1/100, 1/25] < (0.0895 : ℝ) := by
  have hmain : ∀ l : List ℚ, getErrorR l = errSpecR l := by
    intro l
    unfold getErrorR errSpecR
    rw [show l.foldl (fun acc s => acc + 1 / s) 0 = (l.map fun s => 1 / s).sum by
      simpa using foldl_inv_sum l 0]
    rw [one_div, one_div, ← Real.sqrt_inv]
  have hconc : getErrorR [1/100, 1/25] = Real.sqrt (1/125) := by
    unfold getErrorR
    rw [show (([1/100, 1/25] : List ℚ).foldl (fun acc s => acc + 1 / s) 0)
        = (125 : ℚ) by norm_num]
    rw [one_div, ← Real.sqrt_inv]
    norm_num
  refine ⟨hmain sigma2, hconc, ?_, ?_⟩
  · rw [hconc]
    rw [Real.lt_sqrt (by norm_num)]
    norm_num
  · rw [hconc]
    rw [Real.sqrt_lt' (by norm_num)]
    norm_num

/-- Claim C5, witness: instantiated at the spec's synthetic variances
`[1/100, 1/25]`. -/
theorem c5_error_estimate_witness :
    getErrorR [1/100, 1/25] = errSpecR [1/100, 1/25]
    ∧ getErrorR [1/100, 1/25] = Real.sqrt (1/125)
    ∧ (0.0894 : ℝ) < getErrorR [1/100, 1/25]
    ∧ getErrorR [1/100, 1/25] < (0.0895 : ℝ) :=
  c5_error_estimate [1/100, 1/25] (by simp) (by norm_num)

/-- Claim C7: `integrate` fails with a configuration error — before
any sampling, with the integrand and RNG never consulted — when
`dim ≤ 0`, when `N` is too small to give every stratification cube its
minimum of 2 evaluations, when a supplied domain's length mismatches
`dim`, or when a supplied domain has an inverted or malformed bound
(`lower >= upper`, a NaN bound included).  Oracle independence of the
outcome expresses that the integrand is never called. -/
theorem c7_configuration_errors (prior : VState) (dim : ℤ)
    (ud : Option (List (ERat × ERat))) (p : VParams)
    (o o' : Oracle) (wo wo' : ℕ → ERat × ERat)
    (h : dim ≤ 0 ∨ p.N < 2 * nCubesSpec dim.toNat p.N
        ∨ (∃ d, ud = some d ∧ (d.length : ℤ) ≠ dim)
        ∨ (∃ d, ud = some d ∧ ∃ b ∈ d, ERat.blt b.1 b.2 = false)) :
    exceptIsOk (integrateVEGASTop prior dim ud p o wo) = false
    ∧ integrateVEGASTop prior dim ud p o wo
        = integrateVEGASTop prior dim ud p o' wo' := by
  have herr : ∃ e, checkInputs dim p.N ud = .error e := by
    unfold checkInputs
    by_cases h1 : dim ≤ 0
    · exact ⟨.badDim, by rw [if_pos h1]⟩
    · rw [if_neg h1]
      by_cases h2 : p.N < 2 * nCubesSpec dim.toNat p.N
      · exact ⟨.tooFewEvals, by rw [if_pos h2]⟩
      · rw [if_neg h2]
        rcases h with h | h | ⟨d, hd, hlen⟩ | ⟨d, hd, b, hb, hblt⟩
        · exact absurd h h1
        · exact absurd h h2
        · subst hd
          refine ⟨.dimMismatch, ?_⟩
          show (if (d.length : ℤ) ≠ dim then Except.error ConfigError.dimMismatch
              else if (d.all fun b => ERat.blt b.1 b.2) = true then Except.ok ()
              else Except.error ConfigError.badDomain)
            = Except.error ConfigError.dimMismatch
          rw [if_pos hlen]
        · subst hd
          by_cases hlen : (d.length : ℤ) ≠ dim
          · refine ⟨.dimMismatch, ?_⟩
            show (if (d.length : ℤ) ≠ dim then Except.error ConfigError.dimMismatch
                else if (d.all fun b => ERat.blt b.1 b.2) = true then Except.ok ()
                else Except.error ConfigError.badDomain)
              = Except.error ConfigError.dimMismatch
            rw [if_pos hlen]
          · refine ⟨.badDomain, ?_⟩
            show (if (d.length : ℤ) ≠ dim then Except.error ConfigError.dimMismatch
                else if (d.all fun b => ERat.blt b.1 b.2) = true then Except.ok ()
                else Except.error ConfigError.badDomain)
              = Except.error ConfigError.badDomain
            rw [if_neg hlen, if_neg ?_]
            intro hall
            rw [List.all_eq_true] at hall
            rw [hall b hb] at hblt
            cases hblt
  obtain ⟨e, he⟩ := herr
  unfold integrateVEGASTop
  rw [he]
  exact ⟨rfl, rfl⟩

/-- Claim C7, witness: `dim = 0` with no supplied domain fails for any
two integrand/warmup behaviours with the same error. -/
theorem c7_configuration_errors_witness :
    exceptIsOk (integrateVEGASTop ⟨0, 0, ERat.fin 0, [], []⟩ 0 none
        ⟨100, 10, ERat.fin 0, ERat.fin 0, false⟩
        (fun _ _ => ⟨ERat.fin 1, ERat.fin 1, 1⟩)
        (fun _ => (ERat.fin 0, ERat.fin 0))) = false
    ∧ integrateVEGASTop ⟨0, 0, ERat.fin 0, [], []⟩ 0 none
          ⟨100, 10, ERat.fin 0, ERat.fin 0, false⟩
          (fun _ _ => ⟨ERat.fin 1, ERat.fin 1, 1⟩)
          (fun _ => (ERat.fin 0, ERat.fin 0))
        = integrateVEGASTop ⟨0, 0, ERat.fin 0, [], []⟩ 0 none
          ⟨100, 10, ERat.fin 0, ERat.fin 0, false⟩
          (fun _ _ => ⟨ERat.fin 2, ERat.fin 3, 5⟩)
          (fun _ => (ERat.fin 1, ERat.fin 1)) :=
  c7_configuration_errors ⟨0, 0, ERat.fin 0, [], []⟩ 0 none
    ⟨100, 10, ERat.fin 0, ERat.fin 0, false⟩ _ _ _ _ (Or.inl (by norm_num))
